import Mathlib

/-!
Signaling relay: room registry and routing.

A shallow embedding of `room.go` and of the connection handler of `handlers.go`.

* A `*websocket.Conn` is a pointer; only its identity matters, so it is a `Nat`.
* A `*Room` is a pointer to a heap object: the index of the object in `World.heap`.
* A Go `map` is an association list (`GoMap`); `range` over a map visits every
  entry once in an unspecified order, so every loop takes the order as an
  argument `iter`, a function that the theorems only assume to permute its input.
* `WriteJSON` may fail; whether the k-th write of a call fails is given by an
  argument `net : Nat → Bool`. Every write is recorded as an `Attempt`.
* Log lines are not modelled.
-/

namespace Signaling

/-! ## Go maps -/

/-- A Go map as an association list. -/
abbrev GoMap (κ ν : Type) := List (κ × ν)

/-- The lookup `v, ok := m[k]`. -/
def mapGet {κ ν : Type} [DecidableEq κ] : GoMap κ ν → κ → Option ν
  | [], _ => none
  | (k', v) :: rest, k => if k' = k then some v else mapGet rest k

/-- The statement `delete(m, k)`. -/
def mapDelete {κ ν : Type} [DecidableEq κ] (m : GoMap κ ν) (k : κ) : GoMap κ ν :=
  m.filter (fun e => decide (e.1 ≠ k))

/-- The assignment `m[k] = v`: any entry under `k` is replaced. The position of an
entry in the list carries no meaning, since loops take their visiting order apart. -/
def mapSet {κ ν : Type} [DecidableEq κ] (m : GoMap κ ν) (k : κ) (v : ν) : GoMap κ ν :=
  mapDelete m k ++ [(k, v)]

/-- The keys of a map. -/
def mapKeys {κ ν : Type} (m : GoMap κ ν) : List κ := m.map Prod.fst

/-! ## Data model -/

/-- The struct `Client` of room.go. -/
structure Client where
  Conn : Nat
  PeerID : String
  RoomID : String
deriving DecidableEq

/-- The struct `SignalMessage` of handlers.go; the payload is opaque. -/
structure SignalMessage where
  Type_ : String
  Payload : Option String
  Target : String
  Sender : String
  RoomID : String
deriving DecidableEq

/-- The struct `Room` of room.go, without its mutex. -/
structure Room where
  ID : String
  Clients : GoMap Nat Client
deriving DecidableEq

/-- The heap of `Room` objects and the global `rooms` map. -/
structure World where
  heap : List Room
  rooms : GoMap String Nat
deriving DecidableEq

/-- The state at process start: `rooms = make(map[string]*Room)`. -/
def World.empty : World := { heap := [], rooms := [] }

/-- One call of `WriteJSON`: the connection, the envelope, and whether it failed. -/
structure Attempt where
  conn : Nat
  msg : SignalMessage
  err : Bool
deriving DecidableEq

/-- The recipient and envelope of a write. -/
def Attempt.target (a : Attempt) : Nat × SignalMessage := (a.conn, a.msg)

/-- The envelopes written to connection `c`, in order. -/
def received (sent : List Attempt) (c : Nat) : List SignalMessage :=
  (sent.filter (fun a => decide (a.conn = c))).map Attempt.msg

/-! ## room.go -/

/-- The function `GetOrCreateRoom`: the world after the call and the returned pointer. -/
def GetOrCreateRoom (w : World) (roomID : String) : World × Nat :=
  match mapGet w.rooms roomID with
  | some r => (w, r)
  | none =>
    let r := w.heap.length
    ({ heap := w.heap ++ [{ ID := roomID, Clients := [] }],
       rooms := mapSet w.rooms roomID r }, r)

/-- The method `Room.AddClient`. A pointer outside the heap does not occur in the
program; the world is then returned as it is. -/
def AddClient (w : World) (r : Nat) (client : Client) : World :=
  match w.heap[r]? with
  | none => w
  | some room =>
    { w with heap := w.heap.set r { room with Clients := mapSet room.Clients client.Conn client } }

/-- The first critical section of `Room.RemoveClient` (under `r.mu`): the membership
removal; returns `clientCount`, or `none` on the early return. -/
def removeMember (w : World) (r : Nat) (client : Client) : World × Option Nat :=
  match w.heap[r]? with
  | none => (w, none)
  | some room =>
    match mapGet room.Clients client.Conn with
    | none => (w, none)
    | some _ =>
      let clients := mapDelete room.Clients client.Conn
      ({ w with heap := w.heap.set r { room with Clients := clients } }, some clients.length)

/-- The second critical section of `Room.RemoveClient` (under `roomsMu`):
`delete(rooms, r.ID)`. -/
def deleteRoom (w : World) (r : Nat) : World :=
  match w.heap[r]? with
  | none => w
  | some room => { w with rooms := mapDelete w.rooms room.ID }

/-- The method `Room.RemoveClient`. -/
def RemoveClient (w : World) (r : Nat) (client : Client) : World :=
  match removeMember w r client with
  | (w1, none) => w1
  | (w1, some clientCount) => if clientCount = 0 then deleteRoom w1 r else w1

/-- The test `sender != nil && targetConn == sender.Conn` of `BroadcastMessage`. -/
def isOrigin (sender : Option Client) (targetConn : Nat) : Bool :=
  match sender with
  | none => false
  | some s => decide (targetConn = s.Conn)

/-- The `range` loop of `Room.BroadcastMessage` over the entries in visiting order;
`k` counts the writes made so far. -/
def broadcastLoop (net : Nat → Bool) (sender : Option Client) (message : SignalMessage) :
    Nat → List (Nat × Client) → List Attempt
  | _, [] => []
  | k, (targetConn, targetClient) :: rest =>
    if message.Target ≠ "" then
      if targetClient.PeerID = message.Target then
        [{ conn := targetConn, msg := message, err := net k }]
      else
        broadcastLoop net sender message k rest
    else if isOrigin sender targetConn then
      broadcastLoop net sender message k rest
    else
      { conn := targetConn, msg := message, err := net k } ::
        broadcastLoop net sender message (k + 1) rest

/-- The method `Room.BroadcastMessage`: the world after the call and the writes made.
The lines that compute `sourcePeerID` and compare it with `message.Sender` only feed
log lines and are left out. -/
def BroadcastMessage (net : Nat → Bool) (iter : List (Nat × Client) → List (Nat × Client))
    (w : World) (r : Nat) (sender : Option Client) (message : SignalMessage) :
    World × List Attempt :=
  match w.heap[r]? with
  | none => (w, [])
  | some room =>
    if room.Clients.length = 0 then (w, [])
    else (w, broadcastLoop net sender message 0 (iter room.Clients))

/-- The first loop of `Room.NotifyPeers`: `new-peer` to every other member. -/
def notifyExisting (net : Nat → Bool) (newClient : Client) (newPeerMessage : SignalMessage) :
    Nat → List (Nat × Client) → List Attempt
  | _, [] => []
  | k, (_, existingClient) :: rest =>
    if existingClient.Conn = newClient.Conn then
      notifyExisting net newClient newPeerMessage k rest
    else
      { conn := existingClient.Conn, msg := newPeerMessage, err := net k } ::
        notifyExisting net newClient newPeerMessage (k + 1) rest

/-- The second loop of `Room.NotifyPeers`: one `existing-peer` per other member,
written to the new client. -/
def notifyNew (net : Nat → Bool) (newClient : Client) (roomID : String) :
    Nat → List (Nat × Client) → List Attempt
  | _, [] => []
  | k, (_, existingClient) :: rest =>
    if existingClient.Conn = newClient.Conn then
      notifyNew net newClient roomID k rest
    else
      { conn := newClient.Conn,
        msg := { Type_ := "existing-peer", Payload := none, Target := "",
                 Sender := existingClient.PeerID, RoomID := roomID },
        err := net k } ::
        notifyNew net newClient roomID (k + 1) rest

/-- The method `Room.NotifyPeers`; `iter1` and `iter2` are the visiting orders of its two loops. -/
def NotifyPeers (net : Nat → Bool) (iter1 iter2 : List (Nat × Client) → List (Nat × Client))
    (w : World) (r : Nat) (newClient : Client) : World × List Attempt :=
  match w.heap[r]? with
  | none => (w, [])
  | some room =>
    let newPeerMessage : SignalMessage :=
      { Type_ := "new-peer", Payload := none, Target := "",
        Sender := newClient.PeerID, RoomID := room.ID }
    let first := notifyExisting net newClient newPeerMessage 0 (iter1 room.Clients)
    let second := notifyNew net newClient room.ID first.length (iter2 room.Clients)
    (w, first ++ second)

/-! ## handlers.go -/

/-- The outcome of one iteration of the receive loop. -/
structure StepResult where
  world : World
  sent : List Attempt
  active : Bool
deriving DecidableEq

/-- The tail of an iteration of the receive loop: the default of `RoomID`, then the
relay through `BroadcastMessage` with the connection's client as sender. -/
def WebSocketHandler.relaySignal (net : Nat → Bool) (iter : List (Nat × Client) → List (Nat × Client))
    (w : World) (currentRoom : Nat) (client : Client) (roomID : String)
    (receivedSignal : SignalMessage) : StepResult :=
  let receivedSignal : SignalMessage :=
    if receivedSignal.RoomID = "" then { receivedSignal with RoomID := roomID }
    else receivedSignal
  let out := BroadcastMessage net iter w currentRoom (some client) receivedSignal
  { world := out.1, sent := out.2, active := true }

/-- One iteration of the receive loop of `WebSocketHandler` for the connection `conn`
bound to `roomID` and `peerID`, whose room pointer is `currentRoom`. The input is the
result of `ReadJSON`: `none` for a read error, which leaves the loop. -/
def WebSocketHandler.receiveStep (net : Nat → Bool) (iter : List (Nat × Client) → List (Nat × Client))
    (w : World) (currentRoom conn : Nat) (roomID peerID : String)
    (input : Option SignalMessage) : StepResult :=
  let client : Client := { Conn := conn, PeerID := peerID, RoomID := roomID }
  match input with
  | none => { world := w, sent := [], active := false }
  | some receivedSignal =>
    if receivedSignal.Sender = "" then
      WebSocketHandler.relaySignal net iter w currentRoom client roomID { receivedSignal with Sender := peerID }
    else if receivedSignal.Sender ≠ peerID then
      { world := w, sent := [], active := true }
    else
      WebSocketHandler.relaySignal net iter w currentRoom client roomID receivedSignal

/-- The deferred cleanup of `WebSocketHandler`: `RemoveClient`, then the `peer-left`
broadcast with a nil sender. The final `conn.Close()` touches neither the rooms nor
the other connections and is left out. -/
def WebSocketHandler.cleanup (net : Nat → Bool) (iter : List (Nat × Client) → List (Nat × Client))
    (w : World) (currentRoom conn : Nat) (roomID peerID : String) : World × List Attempt :=
  let client : Client := { Conn := conn, PeerID := peerID, RoomID := roomID }
  let w1 := RemoveClient w currentRoom client
  let peerLeftMsg : SignalMessage :=
    { Type_ := "peer-left", Payload := none, Target := "", Sender := peerID, RoomID := roomID }
  BroadcastMessage net iter w1 currentRoom none peerLeftMsg

/-! ## Sequential joins and leaves -/

/-- A join or a leave, executed as a whole. -/
inductive Op where
  | join (roomID : String) (client : Client)
  | leave (r : Nat) (client : Client)
deriving DecidableEq

/-- A join: `GetOrCreateRoom(roomID)` followed by `AddClient(client)` on the result. -/
def joinRoom (w : World) (roomID : String) (client : Client) : World :=
  let got := GetOrCreateRoom w roomID
  AddClient got.1 got.2 client

/-- Executing one operation. -/
def Op.exec (w : World) : Op → World
  | Op.join roomID client => joinRoom w roomID client
  | Op.leave r client => RemoveClient w r client

/-- Executing operations one at a time from the empty registry. -/
def runOps (ops : List Op) : World := ops.foldl Op.exec World.empty

/-- Room object `i` is the one registered under its id. -/
def registered (w : World) (i : Nat) (room : Room) : Prop :=
  mapGet w.rooms room.ID = some i

/-- A room object is registered under its id iff it has a member, and every
registry entry points to a room object carrying the entry's key as id. -/
def RegistryInv (w : World) : Prop :=
  (∀ i room, w.heap[i]? = some room → (registered w i room ↔ room.Clients ≠ [])) ∧
  (∀ k i, mapGet w.rooms k = some i → ∃ room, w.heap[i]? = some room ∧ room.ID = k)

/-! ## Interleaved connections -/

/-- Where a connection stands between the critical sections of its handler. -/
inductive Pc where
  | start
  | hasRoom (r : Nat)
  | member (r : Nat)
  | emptied (r : Nat)
  | closed
deriving DecidableEq

/-- A connection: its client record and its position. -/
structure Thread where
  client : Client
  pc : Pc
deriving DecidableEq

/-- The shared world and the connections. -/
structure Sys where
  world : World
  threads : List Thread
deriving DecidableEq

/-- Connection `t` runs its next critical section: `GetOrCreateRoom` (under `roomsMu`),
`AddClient` (under `r.mu`), the membership removal of `RemoveClient` (under `r.mu`),
the registry deletion of `RemoveClient` (under `roomsMu`). `none` when `t` has ended. -/
def Sys.step (s : Sys) (t : Nat) : Option Sys :=
  match s.threads[t]? with
  | none => none
  | some th =>
    match th.pc with
    | Pc.start =>
      let got := GetOrCreateRoom s.world th.client.RoomID
      some { world := got.1, threads := s.threads.set t { th with pc := Pc.hasRoom got.2 } }
    | Pc.hasRoom r =>
      some { world := AddClient s.world r th.client,
             threads := s.threads.set t { th with pc := Pc.member r } }
    | Pc.member r =>
      match removeMember s.world r th.client with
      | (w1, some clientCount) =>
        some { world := w1,
               threads := s.threads.set t
                 { th with pc := if clientCount = 0 then Pc.emptied r else Pc.closed } }
      | (w1, none) =>
        some { world := w1, threads := s.threads.set t { th with pc := Pc.closed } }
    | Pc.emptied r =>
      some { world := deleteRoom s.world r,
             threads := s.threads.set t { th with pc := Pc.closed } }
    | Pc.closed => none

/-- Running a schedule: the list of connections in the order they take their steps. -/
def Sys.run (s : Sys) : List Nat → Option Sys
  | [] => some s
  | t :: rest =>
    match s.step t with
    | none => none
    | some s1 => Sys.run s1 rest

/-- Connections at their start over the empty registry. -/
def Sys.init (clients : List Client) : Sys :=
  { world := World.empty, threads := clients.map (fun c => { client := c, pc := Pc.start }) }

/-- Three connections to the room `x`. -/
def raceClients : List Client :=
  [{ Conn := 1, PeerID := "a", RoomID := "x" },
   { Conn := 2, PeerID := "b", RoomID := "x" },
   { Conn := 3, PeerID := "c", RoomID := "x" }]

/-- A schedule: connection 0 joins; connection 1 obtains the room pointer; connection 0
leaves, which empties and unregisters the room; connection 1 adds itself to the room
it holds; connection 2 joins. -/
def raceSchedule : List Nat := [0, 0, 1, 0, 0, 1, 2, 2]

/-! ## A concrete room -/

/-- Member `S` on connection 1. -/
def clientS : Client := { Conn := 1, PeerID := "S", RoomID := "R" }

/-- Member `A` on connection 2. -/
def clientA : Client := { Conn := 2, PeerID := "A", RoomID := "R" }

/-- Member `B` on connection 3. -/
def clientB : Client := { Conn := 3, PeerID := "B", RoomID := "R" }

/-- The room `R` with members `S`, `A` and `B`. -/
def roomSAB : Room := { ID := "R", Clients := [(1, clientS), (2, clientA), (3, clientB)] }

/-- The world after `S`, `A` and `B` have joined room `R`. -/
def worldSAB : World :=
  runOps [Op.join "R" clientS, Op.join "R" clientA, Op.join "R" clientB]

/-- The world after `S` and `A` have joined room `R`. -/
def worldSA : World := runOps [Op.join "R" clientS, Op.join "R" clientA]

/-- The room `R` with members `S` and `A`. -/
def roomSA : Room := { ID := "R", Clients := [(1, clientS), (2, clientA)] }

/-- An envelope without target. -/
def offerAll : SignalMessage :=
  { Type_ := "offer", Payload := some "sdp", Target := "", Sender := "S", RoomID := "R" }

/-- An envelope for `A`. -/
def offerToA : SignalMessage :=
  { Type_ := "offer", Payload := some "sdp", Target := "A", Sender := "S", RoomID := "R" }

/-- An envelope for an identity that is not in the room. -/
def offerToZ : SignalMessage :=
  { Type_ := "offer", Payload := some "sdp", Target := "Z", Sender := "S", RoomID := "R" }

/-- An envelope received without `Sender` and without `RoomID`. -/
def unsigned : SignalMessage :=
  { Type_ := "offer", Payload := some "sdp", Target := "", Sender := "", RoomID := "" }

/-- An envelope that claims to come from `A`. -/
def spoofed : SignalMessage :=
  { Type_ := "offer", Payload := none, Target := "", Sender := "A", RoomID := "" }

/-- A network on which the first write of a call fails. -/
def firstWriteFails : Nat → Bool := fun k => decide (k = 0)

/-! ## Lemmas on maps -/

theorem mapDelete_cons_eq {κ ν : Type} [DecidableEq κ] (k : κ) (v : ν) (rest : GoMap κ ν) :
    mapDelete ((k, v) :: rest) k = mapDelete rest k := by
  simp [mapDelete]

theorem mapDelete_cons_ne {κ ν : Type} [DecidableEq κ] {a k : κ} (v : ν) (rest : GoMap κ ν)
    (h : a ≠ k) : mapDelete ((a, v) :: rest) k = (a, v) :: mapDelete rest k := by
  simp [mapDelete, h]

theorem mapGet_cons_eq {κ ν : Type} [DecidableEq κ] (k : κ) (v : ν) (rest : GoMap κ ν) :
    mapGet ((k, v) :: rest) k = some v := by
  simp [mapGet]

theorem mapGet_cons_ne {κ ν : Type} [DecidableEq κ] {a k : κ} (v : ν) (rest : GoMap κ ν)
    (h : a ≠ k) : mapGet ((a, v) :: rest) k = mapGet rest k := by
  simp [mapGet, h]

theorem mapGet_mapDelete_self {κ ν : Type} [DecidableEq κ] (m : GoMap κ ν) (k : κ) :
    mapGet (mapDelete m k) k = none := by
  induction m with
  | nil => rfl
  | cons e rest ih =>
    obtain ⟨a, v⟩ := e
    by_cases h : a = k
    · subst h
      rw [mapDelete_cons_eq]
      exact ih
    · rw [mapDelete_cons_ne v rest h, mapGet_cons_ne v _ h]
      exact ih

theorem mapGet_mapDelete_ne {κ ν : Type} [DecidableEq κ] (m : GoMap κ ν) {k k' : κ}
    (hne : k' ≠ k) : mapGet (mapDelete m k) k' = mapGet m k' := by
  induction m with
  | nil => rfl
  | cons e rest ih =>
    obtain ⟨a, v⟩ := e
    by_cases h : a = k
    · subst h
      rw [mapDelete_cons_eq, mapGet_cons_ne v rest (Ne.symm hne)]
      exact ih
    · rw [mapDelete_cons_ne v rest h]
      by_cases h2 : a = k'
      · subst h2
        rw [mapGet_cons_eq, mapGet_cons_eq]
      · rw [mapGet_cons_ne v _ h2, mapGet_cons_ne v _ h2]
        exact ih

theorem mapGet_append {κ ν : Type} [DecidableEq κ] (a b : GoMap κ ν) (k : κ) :
    mapGet (a ++ b) k = match mapGet a k with
      | some v => some v
      | none => mapGet b k := by
  induction a with
  | nil => rfl
  | cons e rest ih =>
    by_cases h : e.1 = k
    · simp [mapGet, h]
    · simpa [mapGet, h] using ih

theorem mapGet_mapSet_self {κ ν : Type} [DecidableEq κ] (m : GoMap κ ν) (k : κ) (v : ν) :
    mapGet (mapSet m k v) k = some v := by
  simp [mapSet, mapGet_append, mapGet_mapDelete_self, mapGet]

theorem mapGet_mapSet_ne {κ ν : Type} [DecidableEq κ] (m : GoMap κ ν) {k k' : κ} (v : ν)
    (hne : k' ≠ k) : mapGet (mapSet m k v) k' = mapGet m k' := by
  have h : ¬ k = k' := fun h => hne h.symm
  rw [mapSet, mapGet_append, mapGet_mapDelete_ne m hne]
  cases mapGet m k' <;> simp [mapGet, h]

theorem mapSet_ne_nil {κ ν : Type} [DecidableEq κ] (m : GoMap κ ν) (k : κ) (v : ν) :
    mapSet m k v ≠ [] := by
  simp [mapSet]

theorem ne_nil_of_mapGet {κ ν : Type} [DecidableEq κ] {m : GoMap κ ν} {k : κ} {v : ν}
    (h : mapGet m k = some v) : m ≠ [] := by
  intro hm
  subst hm
  simp [mapGet] at h

/-! ## The registry invariant under sequential joins and leaves -/

theorem AddClient_inv (w : World) (r : Nat) (c : Client)
    (hr : ∃ room, w.heap[r]? = some room ∧ mapGet w.rooms room.ID = some r)
    (ha : ∀ i room, i ≠ r → w.heap[i]? = some room →
      (registered w i room ↔ room.Clients ≠ []))
    (hb : ∀ k i, mapGet w.rooms k = some i → ∃ room, w.heap[i]? = some room ∧ room.ID = k) :
    RegistryInv (AddClient w r c) := by
  obtain ⟨room, hroom, hreg⟩ := hr
  have hlt : r < w.heap.length := by
    rcases List.getElem?_eq_some_iff.mp hroom with ⟨h, _⟩
    exact h
  simp only [AddClient, hroom]
  constructor
  · intro i room' hi
    by_cases hir : i = r
    · subst hir
      rw [List.getElem?_set_self hlt] at hi
      cases hi
      simp only [registered]
      exact ⟨fun _ => mapSet_ne_nil _ _ _, fun _ => hreg⟩
    · rw [List.getElem?_set_ne (Ne.symm hir)] at hi
      exact ha i room' hir hi
  · intro k i hk
    obtain ⟨room', hroom', hid⟩ := hb k i hk
    by_cases hir : i = r
    · subst hir
      rw [hroom] at hroom'
      cases hroom'
      exact ⟨_, List.getElem?_set_self hlt, hid⟩
    · exact ⟨room', by rw [List.getElem?_set_ne (Ne.symm hir)]; exact hroom', hid⟩

theorem GetOrCreateRoom_pre (w : World) (roomID : String) (h : RegistryInv w) :
    (∃ room, (GetOrCreateRoom w roomID).1.heap[(GetOrCreateRoom w roomID).2]? = some room ∧
      mapGet (GetOrCreateRoom w roomID).1.rooms room.ID = some (GetOrCreateRoom w roomID).2) ∧
    (∀ i room, i ≠ (GetOrCreateRoom w roomID).2 →
      (GetOrCreateRoom w roomID).1.heap[i]? = some room →
      (registered (GetOrCreateRoom w roomID).1 i room ↔ room.Clients ≠ [])) ∧
    (∀ k i, mapGet (GetOrCreateRoom w roomID).1.rooms k = some i →
      ∃ room, (GetOrCreateRoom w roomID).1.heap[i]? = some room ∧ room.ID = k) := by
  obtain ⟨ha, hb⟩ := h
  cases hget : mapGet w.rooms roomID with
  | some r =>
    simp only [GetOrCreateRoom, hget]
    obtain ⟨room, hroom, hid⟩ := hb roomID r hget
    exact ⟨⟨room, hroom, by rw [hid]; exact hget⟩, fun i room' _ hi => ha i room' hi, hb⟩
  | none =>
    simp only [GetOrCreateRoom, hget]
    refine ⟨⟨_, List.getElem?_concat_length _ _, mapGet_mapSet_self _ _ _⟩, ?_, ?_⟩
    · intro i room' hir hi
      have hlt : i < w.heap.length := by
        rcases List.getElem?_eq_some_iff.mp hi with ⟨hl, _⟩
        simp only [List.length_append, List.length_singleton] at hl
        omega
      rw [List.getElem?_append_left hlt] at hi
      simp only [registered]
      by_cases hid : room'.ID = roomID
      · rw [hid, mapGet_mapSet_self]
        constructor
        · intro h2
          exact absurd (Option.some.inj h2).symm hir
        · intro h2
          have h3 := (ha i room' hi).mpr h2
          simp only [registered] at h3
          rw [hid, hget] at h3
          cases h3
      · rw [mapGet_mapSet_ne _ _ hid]
        exact ha i room' hi
    · intro k i hk
      by_cases hkr : k = roomID
      · subst hkr
        rw [mapGet_mapSet_self] at hk
        cases hk
        exact ⟨_, List.getElem?_concat_length _ _, rfl⟩
      · rw [mapGet_mapSet_ne _ _ hkr] at hk
        obtain ⟨room', hroom', hid⟩ := hb k i hk
        have hlt : i < w.heap.length := by
          rcases List.getElem?_eq_some_iff.mp hroom' with ⟨hl, _⟩
          exact hl
        exact ⟨room', by rw [List.getElem?_append_left hlt]; exact hroom', hid⟩

theorem joinRoom_inv (w : World) (roomID : String) (c : Client) (h : RegistryInv w) :
    RegistryInv (joinRoom w roomID c) := by
  obtain ⟨h1, h2, h3⟩ := GetOrCreateRoom_pre w roomID h
  exact AddClient_inv _ _ c h1 h2 h3

theorem mapDelete_length_zero {κ ν : Type} [DecidableEq κ] {m : GoMap κ ν} {k : κ}
    (h : (mapDelete m k).length = 0) : mapDelete m k = [] :=
  List.length_eq_zero.mp h

theorem RemoveClient_inv (w : World) (r : Nat) (c : Client) (h : RegistryInv w) :
    RegistryInv (RemoveClient w r c) := by
  obtain ⟨ha, hb⟩ := h
  cases hroom : w.heap[r]? with
  | none => simpa [RemoveClient, removeMember, hroom] using And.intro ha hb
  | some room =>
    cases hget : mapGet room.Clients c.Conn with
    | none => simpa [RemoveClient, removeMember, hroom, hget] using And.intro ha hb
    | some old =>
      have hlt : r < w.heap.length := by
        rcases List.getElem?_eq_some_iff.mp hroom with ⟨hl, _⟩
        exact hl
      have hreg : mapGet w.rooms room.ID = some r :=
        (ha r room hroom).mpr (ne_nil_of_mapGet hget)
      by_cases hz : (mapDelete room.Clients c.Conn).length = 0
      · have hnil := mapDelete_length_zero hz
        simp only [RemoveClient, removeMember, hroom, hget, hz, if_true, deleteRoom,
          List.getElem?_set_self hlt]
        constructor
        · intro i room' hi
          simp only [registered]
          by_cases hir : i = r
          · subst hir
            rw [List.getElem?_set_self hlt] at hi
            cases hi
            simp only [mapGet_mapDelete_self, hnil]
            simp
          · rw [List.getElem?_set_ne (Ne.symm hir)] at hi
            by_cases hid : room'.ID = room.ID
            · rw [hid, mapGet_mapDelete_self]
              constructor
              · intro h2
                cases h2
              · intro h2
                have h3 := (ha i room' hi).mpr h2
                simp only [registered] at h3
                rw [hid, hreg] at h3
                exact absurd (Option.some.inj h3).symm hir
            · rw [mapGet_mapDelete_ne _ hid]
              exact ha i room' hi
        · intro k i hk
          by_cases hkr : k = room.ID
          · subst hkr
            rw [mapGet_mapDelete_self] at hk
            cases hk
          · rw [mapGet_mapDelete_ne _ hkr] at hk
            obtain ⟨room', hroom', hid⟩ := hb k i hk
            have hir : i ≠ r := by
              intro hir
              subst hir
              rw [hroom] at hroom'
              cases hroom'
              exact hkr hid.symm
            exact ⟨room', by rw [List.getElem?_set_ne (Ne.symm hir)]; exact hroom', hid⟩
      · simp only [RemoveClient, removeMember, hroom, hget, hz, if_false]
        constructor
        · intro i room' hi
          by_cases hir : i = r
          · subst hir
            rw [List.getElem?_set_self hlt] at hi
            cases hi
            simp only [registered]
            constructor
            · intro _ hnil
              rw [hnil] at hz
              exact hz rfl
            · intro _
              exact hreg
          · rw [List.getElem?_set_ne (Ne.symm hir)] at hi
            exact ha i room' hi
        · intro k i hk
          obtain ⟨room', hroom', hid⟩ := hb k i hk
          by_cases hir : i = r
          · subst hir
            rw [hroom] at hroom'
            cases hroom'
            exact ⟨_, List.getElem?_set_self hlt, hid⟩
          · exact ⟨room', by rw [List.getElem?_set_ne (Ne.symm hir)]; exact hroom', hid⟩

theorem RegistryInv_empty : RegistryInv World.empty := by
  constructor
  · intro i room hi
    simp [World.empty] at hi
  · intro k i hk
    simp [World.empty, mapGet] at hk

theorem Op_exec_inv (w : World) (op : Op) (h : RegistryInv w) : RegistryInv (Op.exec w op) := by
  cases op with
  | join roomID client => exact joinRoom_inv w roomID client h
  | leave r client => exact RemoveClient_inv w r client h

theorem foldl_exec_inv (ops : List Op) (w : World) (h : RegistryInv w) :
    RegistryInv (ops.foldl Op.exec w) := by
  induction ops generalizing w with
  | nil => exact h
  | cons op rest ih => exact ih _ (Op_exec_inv w op h)

/-- C1: after every sequence of joins (`GetOrCreateRoom` then `AddClient`) and leaves
(`RemoveClient`) executed one at a time from the empty registry, a room object is
registered in `rooms` under its id if and only if its `Clients` map has a member, and
every entry of `rooms` points to a room object whose id is the entry's key. It holds
for all operation sequences, so in particular for joins with fresh connections and
leaves of current members on the room they joined, and after each prefix. -/
theorem C1_registered_iff_nonempty (ops : List Op) :
    (∀ i room, (runOps ops).heap[i]? = some room →
      (mapGet (runOps ops).rooms room.ID = some i ↔ room.Clients ≠ [])) ∧
    (∀ k i, mapGet (runOps ops).rooms k = some i →
      ∃ room, (runOps ops).heap[i]? = some room ∧ room.ID = k) :=
  foldl_exec_inv ops World.empty RegistryInv_empty

/-! ## Lemmas on writes and visiting orders -/

theorem received_nil (k : Nat) : received [] k = [] := rfl

theorem received_cons_eq (a : Attempt) (rest : List Attempt) :
    received (a :: rest) a.conn = a.msg :: received rest a.conn := by
  simp [received]

theorem received_cons_ne (a : Attempt) (rest : List Attempt) {k : Nat} (h : a.conn ≠ k) :
    received (a :: rest) k = received rest k := by
  simp [received, h]

theorem received_append (a b : List Attempt) (k : Nat) :
    received (a ++ b) k = received a k ++ received b k := by
  simp [received]

theorem filter_key_of_not_mem {ν : Type} (l : GoMap Nat ν) (k : Nat) (h : k ∉ mapKeys l) :
    l.filter (fun e => decide (e.1 = k)) = [] := by
  rw [List.filter_eq_nil_iff]
  intro e he hk
  have hk' : e.1 = k := of_decide_eq_true hk
  exact h (hk' ▸ List.mem_map_of_mem Prod.fst he)

theorem filter_key_of_mem {ν : Type} (l : GoMap Nat ν) (k : Nat)
    (hnd : (mapKeys l).Nodup) (h : k ∈ mapKeys l) :
    ∃ v, (k, v) ∈ l ∧ l.filter (fun e => decide (e.1 = k)) = [(k, v)] := by
  induction l with
  | nil => simp [mapKeys] at h
  | cons e rest ih =>
    obtain ⟨a, v⟩ := e
    simp only [mapKeys, List.map_cons, List.nodup_cons] at hnd
    by_cases hak : a = k
    · subst hak
      refine ⟨v, List.mem_cons_self _ _, ?_⟩
      rw [List.filter_cons_of_pos (by simp), filter_key_of_not_mem rest a hnd.1]
    · have hk : k ∈ mapKeys rest := by
        simp only [mapKeys, List.map_cons, List.mem_cons] at h
        rcases h with h | h
        · exact absurd h.symm hak
        · exact h
      obtain ⟨v', hv', hf⟩ := ih hnd.2 hk
      refine ⟨v', List.mem_cons_of_mem _ hv', ?_⟩
      rw [List.filter_cons_of_neg (by simpa using hak)]
      exact hf

theorem iter_filter_key_of_mem {ν : Type} (iter : GoMap Nat ν → GoMap Nat ν)
    (hiter : ∀ l, (iter l).Perm l) (l : GoMap Nat ν) (k : Nat)
    (hnd : (mapKeys l).Nodup) (h : k ∈ mapKeys l) :
    ∃ v, (k, v) ∈ l ∧ (iter l).filter (fun e => decide (e.1 = k)) = [(k, v)] := by
  obtain ⟨v, hv, hf⟩ := filter_key_of_mem l k hnd h
  refine ⟨v, hv, ?_⟩
  have hp := (hiter l).filter (fun e => decide (e.1 = k))
  rw [hf] at hp
  exact List.perm_singleton.mp hp

theorem iter_filter_key_of_not_mem {ν : Type} (iter : GoMap Nat ν → GoMap Nat ν)
    (hiter : ∀ l, (iter l).Perm l) (l : GoMap Nat ν) (k : Nat) (h : k ∉ mapKeys l) :
    (iter l).filter (fun e => decide (e.1 = k)) = [] := by
  have hp := (hiter l).filter (fun e => decide (e.1 = k))
  rw [filter_key_of_not_mem l k h] at hp
  exact List.perm_nil.mp hp

theorem iter_nil {ν : Type} (iter : GoMap Nat ν → GoMap Nat ν)
    (hiter : ∀ l, (iter l).Perm l) : iter [] = [] :=
  List.perm_nil.mp (hiter [])

theorem received_broadcastLoop_untargeted (net : Nat → Bool) (sender : Option Client)
    (m : SignalMessage) (hm : m.Target = "") (k : Nat) (l : List (Nat × Client)) (j : Nat) :
    received (broadcastLoop net sender m j l) k =
      ((l.filter (fun e => decide (e.1 = k))).filter (fun e => !isOrigin sender e.1)).map
        (fun _ => m) := by
  induction l generalizing j with
  | nil => rfl
  | cons e rest ih =>
    obtain ⟨a, v⟩ := e
    simp only [broadcastLoop, hm, ne_eq, not_true_eq_false, if_false]
    by_cases ho : isOrigin sender a = true
    · simp only [ho, if_true]
      rw [ih]
      by_cases hak : a = k
      · rw [List.filter_cons_of_pos (by simpa using hak),
          List.filter_cons_of_neg (by simp [ho])]
      · rw [List.filter_cons_of_neg (by simpa using hak)]
    · simp only [ho, Bool.false_eq_true, if_false]
      by_cases hak : a = k
      · subst hak
        rw [List.filter_cons_of_pos (by simp), List.filter_cons_of_pos (by simpa using ho)]
        have := received_cons_eq { conn := a, msg := m, err := net j }
          (broadcastLoop net sender m (j + 1) rest)
        simp only at this
        rw [this, ih]
        rfl
      · rw [List.filter_cons_of_neg (by simpa using hak),
          received_cons_ne _ _ (by simpa using hak), ih]

theorem broadcastLoop_targeted (net : Nat → Bool) (sender : Option Client)
    (m : SignalMessage) (hm : m.Target ≠ "") (l : List (Nat × Client)) (j : Nat) :
    (broadcastLoop net sender m j l).map Attempt.target =
      match l.find? (fun e => decide (e.2.PeerID = m.Target)) with
      | some e => [(e.1, m)]
      | none => [] := by
  induction l generalizing j with
  | nil => rfl
  | cons e rest ih =>
    obtain ⟨a, v⟩ := e
    simp only [broadcastLoop, hm, ne_eq, not_false_eq_true, if_true]
    by_cases hp : v.PeerID = m.Target
    · simp [hp, List.find?, Attempt.target]
    · simp only [hp, if_false]
      rw [ih, List.find?_cons_of_neg _ (by simpa using hp)]

theorem broadcastLoop_targets_net (net net' : Nat → Bool) (sender : Option Client)
    (m : SignalMessage) (l : List (Nat × Client)) (j j' : Nat) :
    (broadcastLoop net sender m j l).map Attempt.target =
      (broadcastLoop net' sender m j' l).map Attempt.target := by
  induction l generalizing j j' with
  | nil => rfl
  | cons e rest ih =>
    obtain ⟨a, v⟩ := e
    simp only [broadcastLoop]
    split
    · split
      · rfl
      · exact ih j j'
    · split
      · exact ih j j'
      · simp only [List.map_cons, Attempt.target]
        rw [show List.map Attempt.target (broadcastLoop net sender m (j + 1) rest) =
          List.map Attempt.target (broadcastLoop net' sender m (j' + 1) rest) from ih _ _]

theorem BroadcastMessage_world (net : Nat → Bool)
    (iter : List (Nat × Client) → List (Nat × Client)) (w : World) (r : Nat)
    (sender : Option Client) (m : SignalMessage) :
    (BroadcastMessage net iter w r sender m).1 = w := by
  unfold BroadcastMessage
  split
  · rfl
  · split <;> rfl

theorem BroadcastMessage_sent (net : Nat → Bool)
    (iter : List (Nat × Client) → List (Nat × Client)) (hiter : ∀ l, (iter l).Perm l)
    (w : World) (r : Nat) (room : Room) (hroom : w.heap[r]? = some room)
    (sender : Option Client) (m : SignalMessage) :
    (BroadcastMessage net iter w r sender m).2 =
      broadcastLoop net sender m 0 (iter room.Clients) := by
  simp only [BroadcastMessage, hroom]
  split
  · rename_i h
    rw [List.length_eq_zero.mp h, iter_nil iter hiter]
    rfl
  · rfl

theorem broadcastLoop_msg (net : Nat → Bool) (sender : Option Client) (m : SignalMessage)
    (l : List (Nat × Client)) (j : Nat) :
    ∀ a ∈ broadcastLoop net sender m j l, a.msg = m := by
  induction l generalizing j with
  | nil =>
    intro a ha
    simp [broadcastLoop] at ha
  | cons e rest ih =>
    obtain ⟨c, v⟩ := e
    intro a ha
    simp only [broadcastLoop] at ha
    split at ha
    · split at ha
      · rw [List.mem_singleton] at ha
        rw [ha]
      · exact ih j a ha
    · split at ha
      · exact ih j a ha
      · rcases List.mem_cons.mp ha with h | h
        · rw [h]
        · exact ih (j + 1) a h

theorem BroadcastMessage_msg (net : Nat → Bool)
    (iter : List (Nat × Client) → List (Nat × Client)) (w : World) (r : Nat)
    (sender : Option Client) (m : SignalMessage) :
    ∀ a ∈ (BroadcastMessage net iter w r sender m).2, a.msg = m := by
  intro a ha
  unfold BroadcastMessage at ha
  split at ha
  · simp at ha
  · split at ha
    · simp at ha
    · exact broadcastLoop_msg net sender m _ 0 a ha

theorem notifyExisting_targets_net (net net' : Nat → Bool) (newClient : Client)
    (msg : SignalMessage) (l : List (Nat × Client)) (j j' : Nat) :
    (notifyExisting net newClient msg j l).map Attempt.target =
      (notifyExisting net' newClient msg j' l).map Attempt.target := by
  induction l generalizing j j' with
  | nil => rfl
  | cons e rest ih =>
    obtain ⟨c, v⟩ := e
    simp only [notifyExisting]
    split
    · exact ih j j'
    · simp only [List.map_cons, Attempt.target]
      rw [show List.map Attempt.target (notifyExisting net newClient msg (j + 1) rest) =
        List.map Attempt.target (notifyExisting net' newClient msg (j' + 1) rest) from ih _ _]

theorem notifyNew_targets_net (net net' : Nat → Bool) (newClient : Client)
    (roomID : String) (l : List (Nat × Client)) (j j' : Nat) :
    (notifyNew net newClient roomID j l).map Attempt.target =
      (notifyNew net' newClient roomID j' l).map Attempt.target := by
  induction l generalizing j j' with
  | nil => rfl
  | cons e rest ih =>
    obtain ⟨c, v⟩ := e
    simp only [notifyNew]
    split
    · exact ih j j'
    · simp only [List.map_cons, Attempt.target]
      rw [show List.map Attempt.target (notifyNew net newClient roomID (j + 1) rest) =
        List.map Attempt.target (notifyNew net' newClient roomID (j' + 1) rest) from ih _ _]

theorem NotifyPeers_world (net : Nat → Bool)
    (iter1 iter2 : List (Nat × Client) → List (Nat × Client)) (w : World) (r : Nat)
    (newClient : Client) : (NotifyPeers net iter1 iter2 w r newClient).1 = w := by
  unfold NotifyPeers
  split <;> rfl

theorem NotifyPeers_targets_net (net net' : Nat → Bool)
    (iter1 iter2 : List (Nat × Client) → List (Nat × Client)) (w : World) (r : Nat)
    (newClient : Client) :
    (NotifyPeers net iter1 iter2 w r newClient).2.map Attempt.target =
      (NotifyPeers net' iter1 iter2 w r newClient).2.map Attempt.target := by
  unfold NotifyPeers
  split
  · rfl
  · simp only [List.map_append]
    rw [notifyExisting_targets_net net net', notifyNew_targets_net net net']

theorem BroadcastMessage_targets_net (net net' : Nat → Bool)
    (iter : List (Nat × Client) → List (Nat × Client)) (w : World) (r : Nat)
    (sender : Option Client) (m : SignalMessage) :
    (BroadcastMessage net iter w r sender m).2.map Attempt.target =
      (BroadcastMessage net' iter w r sender m).2.map Attempt.target := by
  unfold BroadcastMessage
  split
  · rfl
  · split
    · rfl
    · exact broadcastLoop_targets_net net net' sender m _ 0 0

/-! ## Routing -/

/-- C2: a broadcast (empty `Target`) by a client `S` of a room with distinct map keys
writes the envelope exactly once to every member connection other than the
connection of `S`, and never to the connection of `S` (nor to any connection outside
the room), whatever the visiting order and the outcome of the writes. -/
theorem C2_broadcast_excludes_sender (net : Nat → Bool)
    (iter : List (Nat × Client) → List (Nat × Client)) (hiter : ∀ l, (iter l).Perm l)
    (w : World) (r : Nat) (room : Room) (hroom : w.heap[r]? = some room)
    (hnd : (mapKeys room.Clients).Nodup) (S : Client)
    (hS : mapGet room.Clients S.Conn = some S)
    (m : SignalMessage) (hm : m.Target = "") (k : Nat) :
    received (BroadcastMessage net iter w r (some S) m).2 S.Conn = [] ∧
    received (BroadcastMessage net iter w r (some S) m).2 k =
      if k ∈ mapKeys room.Clients ∧ k ≠ S.Conn then [m] else [] := by
  have _ := hS
  rw [BroadcastMessage_sent net iter hiter w r room hroom]
  have key : ∀ c : Nat, received (broadcastLoop net (some S) m 0 (iter room.Clients)) c =
      if c ∈ mapKeys room.Clients ∧ c ≠ S.Conn then [m] else [] := by
    intro c
    rw [received_broadcastLoop_untargeted net (some S) m hm]
    by_cases hk : c ∈ mapKeys room.Clients
    · obtain ⟨v, _, hf⟩ := iter_filter_key_of_mem iter hiter room.Clients c hnd hk
      rw [hf]
      by_cases hc : c = S.Conn
      · simp [isOrigin, hc]
      · simp [isOrigin, hc, hk]
    · rw [iter_filter_key_of_not_mem iter hiter room.Clients c hk]
      simp [hk]
  refine ⟨?_, key k⟩
  rw [key S.Conn]
  simp

/-- C3: when `Target` is non-empty and some member has that `PeerID`, the call writes
exactly once in total, to a member whose `PeerID` is the target, whoever the origin is
(a client, possibly that member itself, or nil); and when all members with that
`PeerID` sit on one connection, that connection is the recipient. -/
theorem C3_targeted_single_delivery (net : Nat → Bool)
    (iter : List (Nat × Client) → List (Nat × Client)) (hiter : ∀ l, (iter l).Perm l)
    (w : World) (r : Nat) (room : Room) (hroom : w.heap[r]? = some room)
    (origin : Option Client) (m : SignalMessage) (hm : m.Target ≠ "")
    (hex : ∃ k cl, (k, cl) ∈ room.Clients ∧ cl.PeerID = m.Target) :
    (∃ k cl, (k, cl) ∈ room.Clients ∧ cl.PeerID = m.Target ∧
      (BroadcastMessage net iter w r origin m).2.map Attempt.target = [(k, m)]) ∧
    (∀ kA, (∀ k cl, (k, cl) ∈ room.Clients → cl.PeerID = m.Target → k = kA) →
      (BroadcastMessage net iter w r origin m).2.map Attempt.target = [(kA, m)]) := by
  have first : ∃ k cl, (k, cl) ∈ room.Clients ∧ cl.PeerID = m.Target ∧
      (BroadcastMessage net iter w r origin m).2.map Attempt.target = [(k, m)] := by
    rw [BroadcastMessage_sent net iter hiter w r room hroom,
      broadcastLoop_targeted net origin m hm]
    cases hfind : (iter room.Clients).find? (fun e => decide (e.2.PeerID = m.Target)) with
    | none =>
      obtain ⟨k, cl, hmem, hid⟩ := hex
      have hall := List.find?_eq_none.mp hfind (k, cl) ((hiter room.Clients).mem_iff.mpr hmem)
      simp [hid] at hall
    | some e =>
      have hp : e.2.PeerID = m.Target :=
        of_decide_eq_true
          (@List.find?_some (Nat × Client) (fun e => decide (e.2.PeerID = m.Target)) _ _ hfind)
      have hmem : e ∈ room.Clients :=
        (hiter room.Clients).mem_iff.mp (List.mem_of_find?_eq_some hfind)
      exact ⟨e.1, e.2, hmem, hp, rfl⟩
  refine ⟨first, ?_⟩
  intro kA huniq
  obtain ⟨k, cl, hmem, hid, hsent⟩ := first
  rw [hsent, huniq k cl hmem hid]

/-- C4: when `Target` is non-empty and no member has that `PeerID`, the call writes
nothing (to no member and not to the sender) and returns the world, that is every
room's members and the registry, unchanged. -/
theorem C4_unknown_target_dropped (net : Nat → Bool)
    (iter : List (Nat × Client) → List (Nat × Client)) (hiter : ∀ l, (iter l).Perm l)
    (w : World) (r : Nat) (room : Room) (hroom : w.heap[r]? = some room)
    (origin : Option Client) (m : SignalMessage) (hm : m.Target ≠ "")
    (hno : ∀ k cl, (k, cl) ∈ room.Clients → cl.PeerID ≠ m.Target) :
    BroadcastMessage net iter w r origin m = (w, []) := by
  have hw := BroadcastMessage_world net iter w r origin m
  have hs : (BroadcastMessage net iter w r origin m).2 = [] := by
    apply List.map_eq_nil_iff.mp
    rw [BroadcastMessage_sent net iter hiter w r room hroom,
      broadcastLoop_targeted net origin m hm]
    have hnone : (iter room.Clients).find? (fun e => decide (e.2.PeerID = m.Target)) = none := by
      rw [List.find?_eq_none]
      intro e he
      have := hno e.1 e.2 ((hiter room.Clients).mem_iff.mp he)
      simpa using this
    rw [hnone]
  exact Prod.ext hw hs

/-! ## The receive loop -/

/-- C6: an envelope whose `Sender` is set and differs from the connection's peer
identity is dropped: the step writes nothing, returns the world unchanged, and the
connection stays in the receive loop. -/
theorem C6_spoofed_sender_dropped (net : Nat → Bool)
    (iter : List (Nat × Client) → List (Nat × Client)) (w : World)
    (currentRoom conn : Nat) (roomID peerID : String) (m : SignalMessage)
    (hset : m.Sender ≠ "") (hne : m.Sender ≠ peerID) :
    WebSocketHandler.receiveStep net iter w currentRoom conn roomID peerID (some m) =
      { world := w, sent := [], active := true } := by
  simp [WebSocketHandler.receiveStep, hset, hne]

theorem relaySignal_eq (net : Nat → Bool)
    (iter : List (Nat × Client) → List (Nat × Client)) (w : World) (currentRoom : Nat)
    (client : Client) (roomID : String) (m : SignalMessage) :
    WebSocketHandler.relaySignal net iter w currentRoom client roomID m =
      { world := w,
        sent := (BroadcastMessage net iter w currentRoom (some client)
          { m with RoomID := (if m.RoomID = "" then roomID else m.RoomID) }).2,
        active := true } := by
  simp only [WebSocketHandler.relaySignal, BroadcastMessage_world]
  by_cases h : m.RoomID = ""
  · simp only [h, if_true]
  · simp only [h, if_false]

theorem receiveStep_relay (net : Nat → Bool)
    (iter : List (Nat × Client) → List (Nat × Client)) (w : World)
    (currentRoom conn : Nat) (roomID peerID : String) (m : SignalMessage)
    (h : m.Sender = "" ∨ m.Sender = peerID) :
    WebSocketHandler.receiveStep net iter w currentRoom conn roomID peerID (some m) =
      { world := w,
        sent := (BroadcastMessage net iter w currentRoom
          (some { Conn := conn, PeerID := peerID, RoomID := roomID })
          { m with Sender := peerID,
                   RoomID := (if m.RoomID = "" then roomID else m.RoomID) }).2,
        active := true } := by
  by_cases hs : m.Sender = ""
  · simp only [WebSocketHandler.receiveStep, hs, if_true, relaySignal_eq]
  · have hp : m.Sender = peerID := h.resolve_left hs
    simp only [WebSocketHandler.receiveStep, hs, if_false, hp, ne_eq, not_true_eq_false,
      relaySignal_eq]
    cases m
    simp only at hp
    subst hp
    split <;> rfl

theorem BroadcastMessage_received_untargeted (net : Nat → Bool)
    (iter : List (Nat × Client) → List (Nat × Client)) (hiter : ∀ l, (iter l).Perm l)
    (w : World) (r : Nat) (room : Room) (hroom : w.heap[r]? = some room)
    (hnd : (mapKeys room.Clients).Nodup) (S : Client) (m : SignalMessage)
    (hm : m.Target = "") (k : Nat) :
    received (BroadcastMessage net iter w r (some S) m).2 k =
      if k ∈ mapKeys room.Clients ∧ k ≠ S.Conn then [m] else [] := by
  rw [BroadcastMessage_sent net iter hiter w r room hroom,
    received_broadcastLoop_untargeted net (some S) m hm]
  by_cases hk : k ∈ mapKeys room.Clients
  · obtain ⟨v, _, hf⟩ := iter_filter_key_of_mem iter hiter room.Clients k hnd hk
    rw [hf]
    by_cases hc : k = S.Conn
    · simp [isOrigin, hc]
    · simp [isOrigin, hc, hk]
  · rw [iter_filter_key_of_not_mem iter hiter room.Clients k hk]
    simp [hk]

theorem BroadcastMessage_targeted_member (net : Nat → Bool)
    (iter : List (Nat × Client) → List (Nat × Client)) (hiter : ∀ l, (iter l).Perm l)
    (w : World) (r : Nat) (room : Room) (hroom : w.heap[r]? = some room)
    (origin : Option Client) (m : SignalMessage) (hm : m.Target ≠ "")
    (hex : ∃ k cl, (k, cl) ∈ room.Clients ∧ cl.PeerID = m.Target) :
    ∃ k cl, (k, cl) ∈ room.Clients ∧ cl.PeerID = m.Target ∧
      (BroadcastMessage net iter w r origin m).2.map Attempt.target = [(k, m)] := by
  rw [BroadcastMessage_sent net iter hiter w r room hroom,
    broadcastLoop_targeted net origin m hm]
  cases hfind : (iter room.Clients).find? (fun e => decide (e.2.PeerID = m.Target)) with
  | none =>
    obtain ⟨k, cl, hmem, hid⟩ := hex
    have hall := List.find?_eq_none.mp hfind (k, cl) ((hiter room.Clients).mem_iff.mpr hmem)
    simp [hid] at hall
  | some e =>
    have hp : e.2.PeerID = m.Target :=
      of_decide_eq_true
        (@List.find?_some (Nat × Client) (fun e => decide (e.2.PeerID = m.Target)) _ _ hfind)
    have hmem : e ∈ room.Clients :=
      (hiter room.Clients).mem_iff.mp (List.mem_of_find?_eq_some hfind)
    exact ⟨e.1, e.2, hmem, hp, rfl⟩

/-- C9: a step of the receive loop of a connection bound to `peerID`, on a received
envelope `m`:
* when `m.Sender` is empty or equals `peerID`, the step is exactly the call of
  `BroadcastMessage`, with the connection's client as sender, on `m` with `Sender`
  set to `peerID` (an empty `Sender` is filled) and an empty `RoomID` replaced by the
  bound room; the world is returned unchanged and the loop goes on;
* that envelope is really written: without `Target`, exactly once to every member
  connection of the room other than the receiving one; with a `Target` held by a
  member, exactly once in total, to such a member;
* every envelope the step writes has `Sender = peerID` and is that envelope;
* an envelope with another non-empty `Sender` causes no write;
* `BroadcastMessage` writes only the envelope it was given, unchanged. -/
theorem C9_forwarded_sender_is_bound_identity (net : Nat → Bool)
    (iter : List (Nat × Client) → List (Nat × Client)) (w : World)
    (currentRoom conn : Nat) (roomID peerID : String) (m : SignalMessage) :
    ((m.Sender = "" ∨ m.Sender = peerID) →
      WebSocketHandler.receiveStep net iter w currentRoom conn roomID peerID (some m) =
        { world := w,
          sent := (BroadcastMessage net iter w currentRoom
            (some { Conn := conn, PeerID := peerID, RoomID := roomID })
            { m with Sender := peerID,
                     RoomID := (if m.RoomID = "" then roomID else m.RoomID) }).2,
          active := true }) ∧
    (∀ room : Room, (∀ l, (iter l).Perm l) → w.heap[currentRoom]? = some room →
      (m.Sender = "" ∨ m.Sender = peerID) →
      (m.Target = "" → (mapKeys room.Clients).Nodup → ∀ k : Nat,
        received
          (WebSocketHandler.receiveStep net iter w currentRoom conn roomID peerID (some m)).sent
          k =
          if k ∈ mapKeys room.Clients ∧ k ≠ conn then
            [{ m with Sender := peerID,
                      RoomID := (if m.RoomID = "" then roomID else m.RoomID) }]
          else []) ∧
      (m.Target ≠ "" → (∃ k cl, (k, cl) ∈ room.Clients ∧ cl.PeerID = m.Target) →
        ∃ k cl, (k, cl) ∈ room.Clients ∧ cl.PeerID = m.Target ∧
          (WebSocketHandler.receiveStep net iter w currentRoom conn roomID peerID
            (some m)).sent.map Attempt.target =
            [(k, { m with Sender := peerID,
                          RoomID := (if m.RoomID = "" then roomID else m.RoomID) })])) ∧
    (∀ a ∈ (WebSocketHandler.receiveStep net iter w currentRoom conn roomID peerID (some m)).sent,
      a.msg.Sender = peerID ∧
      a.msg = { m with Sender := peerID,
                       RoomID := if m.RoomID = "" then roomID else m.RoomID }) ∧
    ((m.Sender ≠ "" ∧ m.Sender ≠ peerID) →
      (WebSocketHandler.receiveStep net iter w currentRoom conn roomID peerID (some m)).sent = []) ∧
    (∀ (sender : Option Client) (msg : SignalMessage),
      ∀ a ∈ (BroadcastMessage net iter w currentRoom sender msg).2, a.msg = msg) := by
  refine ⟨receiveStep_relay net iter w currentRoom conn roomID peerID m, ?_, ?_, ?_,
    fun sender msg => BroadcastMessage_msg net iter w currentRoom sender msg⟩
  · intro room hiter hroom hok
    rw [receiveStep_relay net iter w currentRoom conn roomID peerID m hok]
    constructor
    · intro ht hnd k
      exact BroadcastMessage_received_untargeted net iter hiter w currentRoom room hroom hnd
        { Conn := conn, PeerID := peerID, RoomID := roomID }
        { m with Sender := peerID, RoomID := (if m.RoomID = "" then roomID else m.RoomID) }
        ht k
    · intro ht hex
      exact BroadcastMessage_targeted_member net iter hiter w currentRoom room hroom
        (some { Conn := conn, PeerID := peerID, RoomID := roomID })
        { m with Sender := peerID, RoomID := (if m.RoomID = "" then roomID else m.RoomID) }
        ht hex
  · intro a ha
    by_cases hok : m.Sender = "" ∨ m.Sender = peerID
    · rw [receiveStep_relay net iter w currentRoom conn roomID peerID m hok] at ha
      have hmsg := BroadcastMessage_msg net iter w currentRoom _ _ a ha
      exact ⟨by rw [hmsg], hmsg⟩
    · have h1 : m.Sender ≠ "" := fun h => hok (Or.inl h)
      have h2 : m.Sender ≠ peerID := fun h => hok (Or.inr h)
      simp [WebSocketHandler.receiveStep, h1, h2] at ha
  · intro h
    simp [WebSocketHandler.receiveStep, h.1, h.2]

/-! ## Join and leave notifications -/

theorem mapDelete_of_not_mem {ν : Type} (m : GoMap Nat ν) (k : Nat) (h : k ∉ mapKeys m) :
    mapDelete m k = m := by
  unfold mapDelete
  rw [List.filter_eq_self]
  intro e he
  have : e.1 ≠ k := fun hk => h (hk ▸ List.mem_map_of_mem Prod.fst he)
  simpa using this

theorem mapKeys_mapDelete_nodup {ν : Type} (m : GoMap Nat ν) (k : Nat)
    (h : (mapKeys m).Nodup) : (mapKeys (mapDelete m k)).Nodup := by
  unfold mapKeys mapDelete
  exact h.sublist ((List.filter_sublist m).map Prod.fst)

theorem mem_mapKeys_mapDelete {ν : Type} (m : GoMap Nat ν) (k c : Nat) :
    c ∈ mapKeys (mapDelete m k) ↔ c ∈ mapKeys m ∧ c ≠ k := by
  simp only [mapKeys, mapDelete, List.mem_map, List.mem_filter, decide_eq_true_eq]
  constructor
  · rintro ⟨e, ⟨he, hne⟩, rfl⟩
    exact ⟨⟨e, he, rfl⟩, hne⟩
  · rintro ⟨⟨e, he, rfl⟩, hne⟩
    exact ⟨e, ⟨he, hne⟩, rfl⟩

theorem RemoveClient_heap_member (w : World) (r : Nat) (room : Room) (c v : Client)
    (hroom : w.heap[r]? = some room) (hmem : mapGet room.Clients c.Conn = some v) :
    (RemoveClient w r c).heap[r]? =
      some { room with Clients := mapDelete room.Clients c.Conn } := by
  have hlt : r < w.heap.length := by
    rcases List.getElem?_eq_some_iff.mp hroom with ⟨hl, _⟩
    exact hl
  simp only [RemoveClient, removeMember, hroom, hmem]
  split
  · simp only [deleteRoom, List.getElem?_set_self hlt]
  · simp only [List.getElem?_set_self hlt]

theorem AddClient_heap (w : World) (r : Nat) (room : Room) (c : Client)
    (hroom : w.heap[r]? = some room) :
    (AddClient w r c).heap[r]? =
      some { room with Clients := mapSet room.Clients c.Conn c } := by
  have hlt : r < w.heap.length := by
    rcases List.getElem?_eq_some_iff.mp hroom with ⟨hl, _⟩
    exact hl
  simp only [AddClient, hroom, List.getElem?_set_self hlt]

theorem received_notifyExisting (net : Nat → Bool) (newClient : Client) (msg : SignalMessage)
    (k : Nat) (l : List (Nat × Client)) (j : Nat) :
    received (notifyExisting net newClient msg j l) k =
      ((l.filter (fun e => decide (e.2.Conn = k))).filter
        (fun e => decide (e.2.Conn ≠ newClient.Conn))).map (fun _ => msg) := by
  induction l generalizing j with
  | nil => rfl
  | cons e rest ih =>
    obtain ⟨a, v⟩ := e
    simp only [notifyExisting]
    by_cases hn : v.Conn = newClient.Conn
    · simp only [hn, if_true]
      rw [ih]
      by_cases hk : newClient.Conn = k
      · rw [List.filter_cons_of_pos (by simpa [hn] using hk),
          List.filter_cons_of_neg (by simp [hn])]
      · rw [List.filter_cons_of_neg (by simpa [hn] using hk)]
    · simp only [hn, if_false]
      by_cases hk : v.Conn = k
      · subst hk
        rw [List.filter_cons_of_pos (by simp), List.filter_cons_of_pos (by simpa using hn)]
        have := received_cons_eq { conn := v.Conn, msg := msg, err := net j }
          (notifyExisting net newClient msg (j + 1) rest)
        simp only at this
        rw [this, ih]
        rfl
      · rw [List.filter_cons_of_neg (by simpa using hk),
          received_cons_ne _ _ (by simpa using hk), ih]

theorem received_notifyNew_self (net : Nat → Bool) (newClient : Client) (roomID : String)
    (l : List (Nat × Client)) (j : Nat) :
    received (notifyNew net newClient roomID j l) newClient.Conn =
      (l.filter (fun e => decide (e.2.Conn ≠ newClient.Conn))).map
        (fun e => { Type_ := "existing-peer", Payload := none, Target := "",
                    Sender := e.2.PeerID, RoomID := roomID }) := by
  induction l generalizing j with
  | nil => rfl
  | cons e rest ih =>
    obtain ⟨a, v⟩ := e
    simp only [notifyNew]
    by_cases hn : v.Conn = newClient.Conn
    · simp only [hn, if_true]
      rw [ih, List.filter_cons_of_neg (by simp [hn])]
    · simp only [hn, if_false]
      rw [List.filter_cons_of_pos (by simpa using hn)]
      have := received_cons_eq
        { conn := newClient.Conn,
          msg := { Type_ := "existing-peer", Payload := none, Target := "",
                   Sender := v.PeerID, RoomID := roomID },
          err := net j }
        (notifyNew net newClient roomID (j + 1) rest)
      simp only at this
      rw [this, ih]
      rfl

theorem received_notifyNew_other (net : Nat → Bool) (newClient : Client) (roomID : String)
    (k : Nat) (hk : k ≠ newClient.Conn) (l : List (Nat × Client)) (j : Nat) :
    received (notifyNew net newClient roomID j l) k = [] := by
  induction l generalizing j with
  | nil => rfl
  | cons e rest ih =>
    obtain ⟨a, v⟩ := e
    simp only [notifyNew]
    split
    · exact ih j
    · rw [received_cons_ne _ _ (by simpa using Ne.symm hk)]
      exact ih (j + 1)

theorem received_notifyExisting_self (net : Nat → Bool) (newClient : Client)
    (msg : SignalMessage) (l : List (Nat × Client)) (j : Nat) :
    received (notifyExisting net newClient msg j l) newClient.Conn = [] := by
  rw [received_notifyExisting, List.map_eq_nil_iff, List.filter_eq_nil_iff]
  intro e he
  have := (List.mem_filter.mp he).2
  simpa using this

/-- C5: when `P` joins with a connection that is new to the room (`AddClient` then
`NotifyPeers`), every other connection of the room receives exactly one envelope,
the `new-peer` envelope with `Sender` the identity of `P`, connections outside the
room receive nothing, and the connection of `P` receives, up to order, exactly one
`existing-peer` envelope per pre-existing member with that member's identity as
`Sender`, and nothing else: no `new-peer` envelope and none for its own entry. -/
theorem C5_join_notifications (net : Nat → Bool)
    (iter1 iter2 : List (Nat × Client) → List (Nat × Client))
    (hiter1 : ∀ l, (iter1 l).Perm l) (hiter2 : ∀ l, (iter2 l).Perm l)
    (w : World) (r : Nat) (room : Room) (hroom : w.heap[r]? = some room)
    (hnd : (mapKeys room.Clients).Nodup)
    (hwf : ∀ k cl, (k, cl) ∈ room.Clients → cl.Conn = k)
    (P : Client) (hfresh : P.Conn ∉ mapKeys room.Clients) :
    (∀ k, k ≠ P.Conn →
      received (NotifyPeers net iter1 iter2 (AddClient w r P) r P).2 k =
        if k ∈ mapKeys room.Clients then
          [{ Type_ := "new-peer", Payload := none, Target := "",
             Sender := P.PeerID, RoomID := room.ID }]
        else []) ∧
    (received (NotifyPeers net iter1 iter2 (AddClient w r P) r P).2 P.Conn).Perm
      (room.Clients.map (fun e =>
        { Type_ := "existing-peer", Payload := none, Target := "",
          Sender := e.2.PeerID, RoomID := room.ID })) ∧
    (∀ e ∈ received (NotifyPeers net iter1 iter2 (AddClient w r P) r P).2 P.Conn,
      e.Type_ = "existing-peer") := by
  have hset : mapSet room.Clients P.Conn P = room.Clients ++ [(P.Conn, P)] := by
    rw [mapSet, mapDelete_of_not_mem _ _ hfresh]
  have hheap := AddClient_heap w r room P hroom
  rw [hset] at hheap
  have hwf2 : ∀ e ∈ room.Clients ++ [(P.Conn, P)], e.2.Conn = e.1 := by
    intro e he
    rcases List.mem_append.mp he with h | h
    · exact hwf e.1 e.2 h
    · rw [List.mem_singleton.mp h]
  have hnd2 : (mapKeys (room.Clients ++ [(P.Conn, P)])).Nodup := by
    simp only [mapKeys, List.map_append, List.map_cons, List.map_nil]
    rw [List.nodup_append]
    refine ⟨hnd, List.nodup_singleton _, ?_⟩
    intro a ha hb
    rw [List.mem_singleton.mp hb] at ha
    exact hfresh ha
  have hsent : (NotifyPeers net iter1 iter2 (AddClient w r P) r P).2 =
      notifyExisting net P
        { Type_ := "new-peer", Payload := none, Target := "",
          Sender := P.PeerID, RoomID := room.ID } 0
        (iter1 (room.Clients ++ [(P.Conn, P)])) ++
      notifyNew net P room.ID
        (notifyExisting net P
          { Type_ := "new-peer", Payload := none, Target := "",
            Sender := P.PeerID, RoomID := room.ID } 0
          (iter1 (room.Clients ++ [(P.Conn, P)]))).length
        (iter2 (room.Clients ++ [(P.Conn, P)])) := by
    simp only [NotifyPeers, hheap]
  have hperm : (received (NotifyPeers net iter1 iter2 (AddClient w r P) r P).2 P.Conn).Perm
      (room.Clients.map (fun e =>
        { Type_ := "existing-peer", Payload := none, Target := "",
          Sender := e.2.PeerID, RoomID := room.ID })) := by
    rw [hsent, received_append, received_notifyExisting_self, List.nil_append,
      received_notifyNew_self]
    apply List.Perm.map
    have hp := (hiter2 (room.Clients ++ [(P.Conn, P)])).filter
      (fun e => decide (e.2.Conn ≠ P.Conn))
    have hf : (room.Clients ++ [(P.Conn, P)]).filter (fun e => decide (e.2.Conn ≠ P.Conn)) =
        room.Clients := by
      rw [List.filter_append, List.filter_cons_of_neg (by simp), List.filter_nil,
        List.append_nil, List.filter_eq_self]
      intro e he
      have h1 : e.2.Conn = e.1 := hwf e.1 e.2 he
      have h2 : e.1 ≠ P.Conn := fun h => hfresh (h ▸ List.mem_map_of_mem Prod.fst he)
      simpa [h1] using h2
    rw [hf] at hp
    exact hp
  refine ⟨?_, hperm, ?_⟩
  · intro k hk
    rw [hsent, received_append, received_notifyNew_other net P room.ID k hk,
      List.append_nil, received_notifyExisting]
    have hcongr : (iter1 (room.Clients ++ [(P.Conn, P)])).filter
        (fun e => decide (e.2.Conn = k)) =
        (iter1 (room.Clients ++ [(P.Conn, P)])).filter (fun e => decide (e.1 = k)) := by
      apply List.filter_congr
      intro e he
      rw [hwf2 e ((hiter1 _).mem_iff.mp he)]
    rw [hcongr]
    by_cases hmem : k ∈ mapKeys room.Clients
    · have hmem2 : k ∈ mapKeys (room.Clients ++ [(P.Conn, P)]) := by
        simp only [mapKeys, List.map_append, List.mem_append]
        exact Or.inl hmem
      obtain ⟨v, hv, hf⟩ := iter_filter_key_of_mem iter1 hiter1 _ k hnd2 hmem2
      have hvc : v.Conn = k := hwf2 (k, v) hv
      rw [hf, List.filter_cons_of_pos (by simpa [hvc] using hk)]
      simp [hmem]
    · have hmem2 : k ∉ mapKeys (room.Clients ++ [(P.Conn, P)]) := by
        simp only [mapKeys, List.map_append, List.mem_append, List.map_cons, List.map_nil,
          List.mem_singleton]
        rintro (h | h)
        · exact hmem h
        · exact hk h
      rw [iter_filter_key_of_not_mem iter1 hiter1 _ k hmem2]
      simp [hmem]
  · intro e he
    obtain ⟨x, _, hx⟩ := List.mem_map.mp (hperm.mem_iff.mp he)
    rw [← hx]

/-- C7: the cleanup of a connection that is a member of its room (`RemoveClient`, then
the `peer-left` broadcast with a nil sender) writes exactly one envelope to every
remaining member connection, the `peer-left` envelope with `Sender` the leaving
identity, and none to the leaving connection or to a connection outside the room;
when the leaving connection was the only member, nothing is written. -/
theorem C7_peer_left_to_remaining (net : Nat → Bool)
    (iter : List (Nat × Client) → List (Nat × Client)) (hiter : ∀ l, (iter l).Perm l)
    (w : World) (r : Nat) (room : Room) (hroom : w.heap[r]? = some room)
    (hnd : (mapKeys room.Clients).Nodup) (conn : Nat) (roomID peerID : String)
    (hmem : mapGet room.Clients conn =
      some { Conn := conn, PeerID := peerID, RoomID := roomID }) :
    (∀ k, received (WebSocketHandler.cleanup net iter w r conn roomID peerID).2 k =
      if k ∈ mapKeys room.Clients ∧ k ≠ conn then
        [{ Type_ := "peer-left", Payload := none, Target := "",
           Sender := peerID, RoomID := roomID }]
      else []) ∧
    ((∀ k ∈ mapKeys room.Clients, k = conn) →
      (WebSocketHandler.cleanup net iter w r conn roomID peerID).2 = []) := by
  have hheap := RemoveClient_heap_member w r room
    { Conn := conn, PeerID := peerID, RoomID := roomID } _ hroom hmem
  simp only at hheap
  have hsent : (WebSocketHandler.cleanup net iter w r conn roomID peerID).2 =
      broadcastLoop net none
        { Type_ := "peer-left", Payload := none, Target := "",
          Sender := peerID, RoomID := roomID } 0
        (iter (mapDelete room.Clients conn)) := by
    simp only [WebSocketHandler.cleanup]
    rw [BroadcastMessage_sent net iter hiter _ r _ hheap]
  constructor
  · intro k
    rw [hsent, received_broadcastLoop_untargeted net none _ rfl]
    by_cases hk : k ∈ mapKeys room.Clients ∧ k ≠ conn
    · obtain ⟨v, _, hf⟩ := iter_filter_key_of_mem iter hiter (mapDelete room.Clients conn) k
        (mapKeys_mapDelete_nodup _ _ hnd) ((mem_mapKeys_mapDelete _ _ _).mpr hk)
      rw [hf]
      simp [isOrigin, hk]
    · rw [iter_filter_key_of_not_mem iter hiter (mapDelete room.Clients conn) k
        (fun h => hk ((mem_mapKeys_mapDelete _ _ _).mp h))]
      simp [hk]
  · intro hlast
    have hnil : mapDelete room.Clients conn = [] := by
      unfold mapDelete
      rw [List.filter_eq_nil_iff]
      intro e he
      have := hlast e.1 (List.mem_map_of_mem Prod.fst he)
      simp [this]
    rw [hsent, hnil, iter_nil iter hiter]
    rfl

/-- C10: whatever writes fail, `BroadcastMessage` and `NotifyPeers` attempt the same
writes (same connections, same envelopes, same order) as when every write succeeds,
and return the world, so every room's members, unchanged. -/
theorem C10_write_failures_do_not_change_delivery (net : Nat → Bool)
    (iter iter1 iter2 : List (Nat × Client) → List (Nat × Client)) (w : World) (r : Nat)
    (origin : Option Client) (m : SignalMessage) (newClient : Client) :
    (BroadcastMessage net iter w r origin m).2.map Attempt.target =
      (BroadcastMessage (fun _ => false) iter w r origin m).2.map Attempt.target ∧
    (BroadcastMessage net iter w r origin m).1 = w ∧
    (NotifyPeers net iter1 iter2 w r newClient).2.map Attempt.target =
      (NotifyPeers (fun _ => false) iter1 iter2 w r newClient).2.map Attempt.target ∧
    (NotifyPeers net iter1 iter2 w r newClient).1 = w :=
  ⟨BroadcastMessage_targets_net net _ iter w r origin m,
   BroadcastMessage_world net iter w r origin m,
   NotifyPeers_targets_net net _ iter1 iter2 w r newClient,
   NotifyPeers_world net iter1 iter2 w r newClient⟩

/-! ## Interleaved joins and leaves -/

/-- C8 fails on the code: under `raceSchedule` the three connections reach a state in
which room object 0 has a member but is not the room registered under its id, and
room objects 0 and 1 carry the same id and both have members. -/
theorem C8_race_unregistered_room_with_member :
    ∃ s, Sys.run (Sys.init raceClients) raceSchedule = some s ∧
      (∃ (i : Nat) (room : Room), s.world.heap[i]? = some room ∧ room.Clients ≠ [] ∧
        mapGet s.world.rooms room.ID ≠ some i) ∧
      (∃ (i j : Nat) (ri rj : Room), i ≠ j ∧ s.world.heap[i]? = some ri ∧ s.world.heap[j]? = some rj ∧
        ri.ID = rj.ID ∧ ri.Clients ≠ [] ∧ rj.Clients ≠ []) := by
  refine ⟨{ world :=
              { heap := [{ ID := "x", Clients := [(2, { Conn := 2, PeerID := "b", RoomID := "x" })] },
                         { ID := "x", Clients := [(3, { Conn := 3, PeerID := "c", RoomID := "x" })] }],
                rooms := [("x", 1)] },
            threads := [{ client := { Conn := 1, PeerID := "a", RoomID := "x" }, pc := Pc.closed },
                        { client := { Conn := 2, PeerID := "b", RoomID := "x" }, pc := Pc.member 0 },
                        { client := { Conn := 3, PeerID := "c", RoomID := "x" }, pc := Pc.member 1 }] },
    by decide, ?_, ?_⟩
  · exact ⟨0, { ID := "x", Clients := [(2, { Conn := 2, PeerID := "b", RoomID := "x" })] },
      rfl, by decide, by decide⟩
  · exact ⟨0, 1, { ID := "x", Clients := [(2, { Conn := 2, PeerID := "b", RoomID := "x" })] },
      { ID := "x", Clients := [(3, { Conn := 3, PeerID := "c", RoomID := "x" })] },
      by decide, rfl, rfl, rfl, by decide, by decide⟩

/-! ## Instances on a concrete room -/

theorem C2_broadcast_witness :
    received (BroadcastMessage firstWriteFails List.reverse worldSAB 0 (some clientS)
      offerAll).2 clientS.Conn = [] ∧
    received (BroadcastMessage firstWriteFails List.reverse worldSAB 0 (some clientS)
      offerAll).2 2 = [offerAll] :=
  C2_broadcast_excludes_sender firstWriteFails List.reverse (fun l => List.reverse_perm l)
    worldSAB 0 roomSAB (by decide) (by decide) clientS (by decide) offerAll rfl 2

theorem C3_targeted_witness :
    (BroadcastMessage firstWriteFails List.reverse worldSAB 0 (some clientS)
      offerToA).2.map Attempt.target = [(2, offerToA)] :=
  (C3_targeted_single_delivery firstWriteFails List.reverse (fun l => List.reverse_perm l)
    worldSAB 0 roomSAB (by decide) (some clientS) offerToA (by decide)
    ⟨2, clientA, by decide, by decide⟩).2 2 (by
      intro k cl hmem hid
      simp only [roomSAB, List.mem_cons, Prod.mk.injEq, List.mem_nil_iff, or_false] at hmem
      rcases hmem with ⟨hk, _⟩ | ⟨hk, _⟩ | ⟨_, hc⟩
      · subst hk
        rename_i hc
        subst hc
        exact absurd hid (by decide)
      · exact hk
      · subst hc
        exact absurd hid (by decide))

theorem C4_unknown_target_witness :
    BroadcastMessage firstWriteFails List.reverse worldSAB 0 (some clientS) offerToZ =
      (worldSAB, []) :=
  C4_unknown_target_dropped firstWriteFails List.reverse (fun l => List.reverse_perm l)
    worldSAB 0 roomSAB (by decide) (some clientS) offerToZ (by decide) (by
      intro k cl hmem hid
      simp only [roomSAB, List.mem_cons, Prod.mk.injEq, List.mem_nil_iff, or_false] at hmem
      rcases hmem with ⟨_, hc⟩ | ⟨_, hc⟩ | ⟨_, hc⟩ <;>
      · subst hc
        exact absurd hid (by decide))

theorem C6_spoofed_witness :
    WebSocketHandler.receiveStep firstWriteFails List.reverse worldSAB 0 1 "R" "S" (some spoofed) =
      { world := worldSAB, sent := [], active := true } :=
  C6_spoofed_sender_dropped firstWriteFails List.reverse worldSAB 0 1 "R" "S" spoofed
    (by decide) (by decide)

theorem C5_join_witness :
    received (NotifyPeers firstWriteFails List.reverse List.reverse
      (AddClient worldSA 0 clientB) 0 clientB).2 2 =
      [{ Type_ := "new-peer", Payload := none, Target := "", Sender := "B", RoomID := "R" }] ∧
    (received (NotifyPeers firstWriteFails List.reverse List.reverse
      (AddClient worldSA 0 clientB) 0 clientB).2 3).Perm
      [{ Type_ := "existing-peer", Payload := none, Target := "", Sender := "S", RoomID := "R" },
       { Type_ := "existing-peer", Payload := none, Target := "", Sender := "A", RoomID := "R" }] :=
  have h := C5_join_notifications firstWriteFails List.reverse List.reverse
    (fun l => List.reverse_perm l) (fun l => List.reverse_perm l)
    worldSA 0 roomSA (by decide) (by decide) (by
      intro k cl hmem
      simp only [roomSA, List.mem_cons, Prod.mk.injEq, List.mem_nil_iff, or_false] at hmem
      rcases hmem with ⟨hk, hc⟩ | ⟨hk, hc⟩ <;>
      · subst hk
        subst hc
        rfl) clientB (by decide)
  ⟨h.1 2 (by decide), h.2.1⟩

theorem C7_peer_left_witness :
    received (WebSocketHandler.cleanup firstWriteFails List.reverse worldSAB 0 1 "R" "S").2 2 =
      [{ Type_ := "peer-left", Payload := none, Target := "", Sender := "S", RoomID := "R" }] ∧
    received (WebSocketHandler.cleanup firstWriteFails List.reverse worldSAB 0 1 "R" "S").2 1 = [] :=
  have h := C7_peer_left_to_remaining firstWriteFails List.reverse
    (fun l => List.reverse_perm l) worldSAB 0 roomSAB (by decide) (by decide) 1 "R" "S"
    (by decide)
  ⟨(h.1 2), (h.1 1)⟩

theorem C9_filled_sender_witness :
    WebSocketHandler.receiveStep firstWriteFails List.reverse worldSAB 0 1 "R" "S"
      (some unsigned) =
      { world := worldSAB,
        sent :=
          [{ conn := 3,
             msg := { Type_ := "offer", Payload := some "sdp", Target := "",
                      Sender := "S", RoomID := "R" },
             err := true },
           { conn := 2,
             msg := { Type_ := "offer", Payload := some "sdp", Target := "",
                      Sender := "S", RoomID := "R" },
             err := false }],
        active := true } ∧
    received (WebSocketHandler.receiveStep firstWriteFails List.reverse worldSAB 0 1 "R" "S"
      (some unsigned)).sent 2 =
      [{ Type_ := "offer", Payload := some "sdp", Target := "", Sender := "S", RoomID := "R" }] :=
  have h := C9_forwarded_sender_is_bound_identity firstWriteFails List.reverse worldSAB 0 1
    "R" "S" unsigned
  ⟨h.1 (Or.inl rfl),
   (h.2.1 roomSAB (fun l => List.reverse_perm l) (by decide) (Or.inl rfl)).1 rfl
     (by decide) 2⟩

end Signaling
